import Mathlib

/-!
Verification of the columnar in-memory array format and IPC stream protocol
described by the repository's specification, against the repository's code.

The repository's own files (`examples/*.rs`) exercise the core through its
public interface and additionally define a `ScalarValue` extraction layer, a
`Table` wrapper and a `ColumnIterator` (`examples/reading_parquet.rs`); those
are translated here directly from the source.  The core itself (Buffer,
DataType/Field/Schema, ArrayData, typed arrays, builders, RecordBatch, the IPC
stream protocol and the equality kernel) is not among the repository's files —
the examples only call it — so those definitions are modelled from the
specification's words, as marked by their doc comments.
-/

namespace ArrowModel

/-! ## Type system: DataType, Field, Schema -/

mutual

/-- Modelled from the spec: the closed logical-type variant set of §3 —
Null, Boolean, signed/unsigned integers (8/16/32/64-bit), Float32/64, Utf8,
LargeUtf8, Date32/Date64, Time (micro/nano resolution), List(child: Field),
Struct(children: ordered sequence of Field). -/
inductive DataType where
  | nullT | boolean
  | int8 | int16 | int32 | int64
  | uint8 | uint16 | uint32 | uint64
  | float32 | float64
  | utf8 | largeUtf8
  | date32 | date64
  | timeMicrosecond | timeNanosecond
  | list (child : Field)
  | struct (children : List Field)

/-- Modelled from the spec: a Field is
`{name, data_type, nullable, metadata: mapping string→string}` (§3). -/
inductive Field where
  | mk (name : String) (dataType : DataType) (nullable : Bool)
      (metadata : List (String × String))

end

def Field.name : Field → String
  | .mk n _ _ _ => n

def Field.dataType : Field → DataType
  | .mk _ t _ _ => t

def Field.nullable : Field → Bool
  | .mk _ _ b _ => b

/-- Discriminant used to compare the non-recursive constructors. -/
def DataType.tag : DataType → Nat
  | .nullT => 0
  | .boolean => 1
  | .int8 => 2
  | .int16 => 3
  | .int32 => 4
  | .int64 => 5
  | .uint8 => 6
  | .uint16 => 7
  | .uint32 => 8
  | .uint64 => 9
  | .float32 => 10
  | .float64 => 11
  | .utf8 => 12
  | .largeUtf8 => 13
  | .date32 => 14
  | .date64 => 15
  | .timeMicrosecond => 16
  | .timeNanosecond => 17
  | .list _ => 18
  | .struct _ => 19

mutual

/-- Structural equality on data types (the `==` the source code applies to
`DataType` values when validating batches and streams). -/
def DataType.beq : DataType → DataType → Bool
  | .list f, .list g => Field.beq f g
  | .struct fs, .struct gs => Field.beqList fs gs
  | a, b => DataType.tag a == DataType.tag b

/-- Structural equality on fields. -/
def Field.beq : Field → Field → Bool
  | .mk n t b m, .mk n2 t2 b2 m2 =>
    n == n2 && DataType.beq t t2 && b == b2 && m == m2

/-- Structural equality on lists of fields. -/
def Field.beqList : List Field → List Field → Bool
  | [], [] => true
  | f :: fs, g :: gs => Field.beq f g && Field.beqList fs gs
  | _, _ => false

end

mutual

def DataType.beq_refl : ∀ a : DataType, DataType.beq a a = true
  | .nullT => rfl
  | .boolean => rfl
  | .int8 => rfl
  | .int16 => rfl
  | .int32 => rfl
  | .int64 => rfl
  | .uint8 => rfl
  | .uint16 => rfl
  | .uint32 => rfl
  | .uint64 => rfl
  | .float32 => rfl
  | .float64 => rfl
  | .utf8 => rfl
  | .largeUtf8 => rfl
  | .date32 => rfl
  | .date64 => rfl
  | .timeMicrosecond => rfl
  | .timeNanosecond => rfl
  | .list f => Field.beq_refl f
  | .struct fs => Field.beqList_refl fs

def Field.beq_refl : ∀ f : Field, Field.beq f f = true
  | .mk n t b m => by
    simp [Field.beq, DataType.beq_refl t]

def Field.beqList_refl : ∀ fs : List Field, Field.beqList fs fs = true
  | [] => rfl
  | f :: fs => by
    simp only [Field.beqList, Bool.and_eq_true]
    exact ⟨Field.beq_refl f, Field.beqList_refl fs⟩

end

mutual

def DataType.eq_of_beq : ∀ {a b : DataType}, DataType.beq a b = true → a = b
  | a, b => by
    cases a <;> cases b <;> intro h <;>
      first
      | rfl
      | exact Bool.noConfusion h
      | exact congrArg DataType.list (Field.eq_of_beq h)
      | exact congrArg DataType.struct (Field.eqList_of_beq h)

def Field.eq_of_beq : ∀ {f g : Field}, Field.beq f g = true → f = g
  | .mk n t b m, .mk n2 t2 b2 m2 => by
    intro h
    simp only [Field.beq, Bool.and_eq_true, beq_iff_eq] at h
    obtain ⟨⟨⟨h1, h2⟩, h3⟩, h4⟩ := h
    rw [h1, h3, h4, DataType.eq_of_beq h2]

def Field.eqList_of_beq : ∀ {fs gs : List Field}, Field.beqList fs gs = true → fs = gs
  | [], [], _ => rfl
  | [], _ :: _, h => absurd h (by simp [Field.beqList])
  | _ :: _, [], h => absurd h (by simp [Field.beqList])
  | f :: fs, g :: gs, h => by
    simp only [Field.beqList, Bool.and_eq_true] at h
    rw [Field.eq_of_beq h.1, Field.eqList_of_beq h.2]

end

/-- Modelled from the spec: a Schema is `{fields: ordered sequence of Field,
metadata: mapping string→string}` (§3). -/
structure Schema where
  fields : List Field
  metadata : List (String × String)

/-- Structural equality on schemas. -/
def Schema.beq (s1 s2 : Schema) : Bool :=
  Field.beqList s1.fields s2.fields && s1.metadata == s2.metadata

/-! ## Buffers and byte-level reads

A Buffer is modelled as the list of byte values (each < 256 by construction)
of its contiguous region.  Sharing a buffer between two ArrayData values is
equality of the byte lists; zero-copy slicing of an ArrayData never rewrites
them.  Alignment of the backing allocation (§4.1 AlignmentError) is a
machine-address property with no shallow-embedding counterpart and is not
modelled. -/

abbrev Buffer := List Nat

/-- Little-endian byte encoding of `n` in `w` bytes. -/
def leBytes (w n : Nat) : List Nat :=
  (List.range w).map fun k => n / 256 ^ k % 256

/-- Little-endian value of a byte list. -/
def leNat : List Nat → Nat
  | [] => 0
  | b :: rest => b % 256 + 256 * leNat rest

/-- Reads `w` bytes little-endian starting at byte position `pos`. -/
def readLE (buf : Buffer) (pos w : Nat) : Nat :=
  leNat ((buf.drop pos).take w)

/-- Two's-complement reinterpretation of a `w`-byte unsigned value. -/
def toSigned (w n : Nat) : Int :=
  if n < 2 ^ (8 * w - 1) then (n : Int) else (n : Int) - 2 ^ (8 * w)

/-- Reads a `w`-byte little-endian two's-complement integer. -/
def readIntLE (buf : Buffer) (pos w : Nat) : Int :=
  toSigned w (readLE buf pos w)

/-- Two's-complement `w`-byte little-endian encoding of an integer. -/
def intLeBytes (w : Nat) (v : Int) : List Nat :=
  leBytes w (v % (2 ^ (8 * w) : Nat)).toNat

/-- Bit `i` of a validity bitmap buffer: bit `i % 8` (least significant
first) of byte `i / 8`; a missing byte reads as 0. -/
def bitmapBit (buf : Buffer) (i : Nat) : Bool :=
  Nat.testBit (buf.getD (i / 8) 0) (i % 8)

/-- Packs a list of bits into bitmap bytes, least-significant bit first. -/
def packBits (bits : List Bool) : List Nat :=
  (List.range ((bits.length + 7) / 8)).map fun j =>
    (List.range 8).foldl
      (fun acc k => acc + (if bits.getD (8 * j + k) false then 2 ^ k else 0)) 0

/-! ## ArrayData -/

/-- Modelled from the spec: the error taxonomy of §7.  `ValidationError`
names which invariant failed (§4.2). -/
inductive ArrowError where
  | validationError (invariant : String)
  | boundsError
  | alignmentError
  | schemaArityError
  | schemaTypeMismatchError
  | rowCountMismatchError
  | schemaMismatchError
  | ipcFormatError
  | streamClosedError
  | ioError
  deriving DecidableEq, Repr

/-- Modelled from the spec: ArrayData is `{data_type, length, null_count,
offset, buffers, child_data, null_bitmap}` (§3), the type-erased descriptor
of one column's physical storage. -/
inductive ArrayData where
  | mk (dataType : DataType) (length : Nat) (nullCount : Nat) (offset : Nat)
      (buffers : List Buffer) (childData : List ArrayData)
      (nullBitmap : Option Buffer)

def ArrayData.dataType : ArrayData → DataType
  | .mk t _ _ _ _ _ _ => t

def ArrayData.length : ArrayData → Nat
  | .mk _ l _ _ _ _ _ => l

def ArrayData.nullCount : ArrayData → Nat
  | .mk _ _ n _ _ _ _ => n

def ArrayData.offset : ArrayData → Nat
  | .mk _ _ _ o _ _ _ => o

def ArrayData.buffers : ArrayData → List Buffer
  | .mk _ _ _ _ b _ _ => b

def ArrayData.childData : ArrayData → List ArrayData
  | .mk _ _ _ _ _ c _ => c

def ArrayData.nullBitmap : ArrayData → Option Buffer
  | .mk _ _ _ _ _ _ nb => nb

/-- Placeholder array (the empty Null array); stands where the Rust source
would panic on an out-of-bounds vector index, as noted at each use site. -/
def ArrayData.empty : ArrayData :=
  .mk .nullT 0 0 0 [] [] none

/-- Modelled from the spec: `is_valid(i)` reads the validity bit at logical
position `offset+i`, defined as always-valid when `null_bitmap` is absent
(§4.2); bit `i` (1 = valid) corresponds to logical row `offset+i` (§3). -/
def ArrayData.isValid (a : ArrayData) (i : Nat) : Bool :=
  match a.nullBitmap with
  | none => true
  | some bm => bitmapBit bm (a.offset + i)

def ArrayData.isNull (a : ArrayData) (i : Nat) : Bool :=
  !a.isValid i

/-- Count of null (unset) validity bits over the logical window, which §3
requires `null_count` to equal. -/
def ArrayData.computedNullCount (a : ArrayData) : Nat :=
  ((List.range a.length).filter fun i => a.isNull i).length

/-- Byte width and signedness of the fixed-width non-boolean types; floats
are carried as their raw bit patterns (no floating-point arithmetic occurs
anywhere in the modelled code paths). -/
def DataType.primLayout : DataType → Option (Nat × Bool)
  | .int8 => some (1, true)
  | .int16 => some (2, true)
  | .int32 => some (4, true)
  | .int64 => some (8, true)
  | .uint8 => some (1, false)
  | .uint16 => some (2, false)
  | .uint32 => some (4, false)
  | .uint64 => some (8, false)
  | .float32 => some (4, false)
  | .float64 => some (8, false)
  | .date32 => some (4, true)
  | .date64 => some (8, true)
  | .timeMicrosecond => some (8, true)
  | .timeNanosecond => some (8, true)
  | _ => none

/-- Byte width of an offsets entry for the variable-length types (Utf8 and
List use 32-bit offsets, LargeUtf8 64-bit ones). -/
def DataType.offsetWidth : DataType → Option Nat
  | .utf8 => some 4
  | .largeUtf8 => some 8
  | .list _ => some 4
  | _ => none

/-- Entry `i` of an offsets buffer of entry width `w`, clamped at zero (the
entries of a validated offsets buffer are non-negative). -/
def offsetsEntry (buf : Buffer) (w i : Nat) : Nat :=
  (readIntLE buf (i * w) w).toNat

/-- Modelled from the spec: `slice(new_offset, new_length)` returns a new
ArrayData with `offset += new_offset`, `length = new_length`, sharing all
buffers/child_data (§4.2); every other field is carried over unchanged. -/
def ArrayData.sliceRaw (a : ArrayData) (o l : Nat) : ArrayData :=
  .mk a.dataType l a.nullCount (a.offset + o) a.buffers a.childData a.nullBitmap

/-- Modelled from the spec: slicing fails with BoundsError if the requested
range exceeds the current `[offset, offset+length)` (§4.2). -/
def ArrayData.slice (a : ArrayData) (o l : Nat) : Except ArrowError ArrayData :=
  if o + l ≤ a.length then .ok (a.sliceRaw o l) else .error .boundsError

/-! ## Typed accessors (§4.3) -/

/-- Result of reading one logical slot through the typed accessor matching
the array's data type: fixed-width numbers, a packed bit, the byte range of
a text value, or the derived child slice of a List. -/
inductive CellValue where
  | int (v : Int)
  | nat (v : Nat)
  | bool (v : Bool)
  | bytes (v : List Nat)
  | sub (v : ArrayData)

/-- Unsigned fixed-width read of logical slot `i` at element width `w`. -/
def primNatAt (a : ArrayData) (w i : Nat) : Nat :=
  readLE (a.buffers.getD 0 []) ((a.offset + i) * w) w

/-- Signed (two's-complement) fixed-width read of logical slot `i`. -/
def primIntAt (a : ArrayData) (w i : Nat) : Int :=
  toSigned w (primNatAt a w i)

/-- Boolean packed-bit read of logical slot `i` from the data buffer. -/
def boolAt (a : ArrayData) (i : Nat) : Bool :=
  bitmapBit (a.buffers.getD 0 []) (a.offset + i)

/-- Variable-length byte range of logical slot `i`: the bytes between
offsets entries `offset+i` and `offset+i+1` of the value-bytes buffer. -/
def varBytesAt (a : ArrayData) (w i : Nat) : List Nat :=
  let offs := a.buffers.getD 0 []
  let vals := a.buffers.getD 1 []
  let start := offsetsEntry offs w (a.offset + i)
  let stop := offsetsEntry offs w (a.offset + i + 1)
  (vals.drop start).take (stop - start)

/-- Modelled from the spec: List `value(i)` returns a derived ArrayData
slice of the single child, spanning `offsets[offset+i]..offsets[offset+i+1]`
(§4.3).  Reads are unchecked like the underlying accessor; an out-of-range
`i` reads past the validated window (the Rust library would panic). -/
def ListArray.value (a : ArrayData) (i : Nat) : ArrayData :=
  let offs := a.buffers.getD 0 []
  let child := a.childData.getD 0 ArrayData.empty
  let start := offsetsEntry offs 4 (a.offset + i)
  let stop := offsetsEntry offs 4 (a.offset + i + 1)
  child.sliceRaw start (stop - start)

/-- Modelled from the spec: Utf8 value boundaries are given by
`offsets[offset+i]..offsets[offset+i+1]` into the value-bytes buffer;
`value(i)` returns that byte range; an out-of-range `i` fails with
BoundsError (§4.3). -/
def StringArray.value (a : ArrayData) (i : Nat) : Except ArrowError (List Nat) :=
  if i < a.length then .ok (varBytesAt a 4 i) else .error .boundsError

/-- LargeUtf8 counterpart of `StringArray.value` (64-bit offsets). -/
def LargeStringArray.value (a : ArrayData) (i : Nat) : Except ArrowError (List Nat) :=
  if i < a.length then .ok (varBytesAt a 8 i) else .error .boundsError

/-- Unchecked read of logical slot `i` through the typed accessor for the
array's data type (§4.3: Primitive/Boolean `value(i)` reads the
`offset+i`-th fixed-width element from the sole data buffer; a null slot
carries a physical placeholder value that is returned as-is).  Null and
Struct arrays have no row-indexed value. -/
def readCell (a : ArrayData) (i : Nat) : Option CellValue :=
  match a.dataType with
  | .nullT => none
  | .struct _ => none
  | .boolean => some (.bool (boolAt a i))
  | .utf8 => some (.bytes (varBytesAt a 4 i))
  | .largeUtf8 => some (.bytes (varBytesAt a 8 i))
  | .list _ => some (.sub (ListArray.value a i))
  | t =>
    match t.primLayout with
    | some (w, signed) =>
      some (if signed then .int (primIntAt a w i) else .nat (primNatAt a w i))
    | none => none

/-- Bounds-guarded slot read: the typed accessor behind an index check
against the logical `length`. -/
def ArrayData.valueAt (a : ArrayData) (i : Nat) : Option CellValue :=
  if i < a.length then readCell a i else none

/-! ## ArrayData validation (§3 invariants, §4.2 build) -/

/-- Number of buffers required by a data type (§3: primitive 1 data buffer;
Utf8 1 offsets + 1 value-bytes; List 1 offsets; Struct 0; Null 0). -/
def DataType.bufferArity : DataType → Nat
  | .nullT => 0
  | .boolean => 1
  | .utf8 => 2
  | .largeUtf8 => 2
  | .list _ => 1
  | .struct _ => 0
  | _ => 1

/-- Number of child arrays required by a data type (§3: List 1 child,
Struct one per field, everything else none). -/
def DataType.childArity : DataType → Nat
  | .list _ => 1
  | .struct fs => fs.length
  | _ => 0

/-- Arity invariant of §3: the number of buffers and child_data is exactly
the arity required by the data type, and each child carries the data type
its field declares (a List's single child matches the child field, a
Struct's children match its fields positionally). -/
def arityOk (t : DataType) (buffers : List Buffer)
    (children : List ArrayData) : Bool :=
  buffers.length == t.bufferArity && children.length == t.childArity &&
    match t with
    | .list f => DataType.beq (children.getD 0 ArrayData.empty).dataType f.dataType
    | .struct fs =>
      (children.zip fs).all fun p => DataType.beq p.1.dataType p.2.dataType
    | _ => true

/-- Data-buffer size invariant of §3: each data buffer holds at least
`offset+length` elements of the type's physical width (bits for Boolean,
bytes-per-element otherwise); for the variable-length types the offsets
buffer holds at least `offset+length+1` entries, and the range the offsets
address lies inside the value-bytes buffer (Utf8) or the child's logical
length (List) — `offset+length` never exceeds the logical length implied by
the underlying buffers. -/
def buffersSizeOk (t : DataType) (length offset : Nat) (buffers : List Buffer)
    (children : List ArrayData) : Bool :=
  match t with
  | .nullT => true
  | .struct _ => true
  | .boolean => (buffers.getD 0 []).length * 8 ≥ offset + length
  | .utf8 =>
    (buffers.getD 0 []).length ≥ (offset + length + 1) * 4 &&
      offsetsEntry (buffers.getD 0 []) 4 (offset + length) ≤ (buffers.getD 1 []).length
  | .largeUtf8 =>
    (buffers.getD 0 []).length ≥ (offset + length + 1) * 8 &&
      offsetsEntry (buffers.getD 0 []) 8 (offset + length) ≤ (buffers.getD 1 []).length
  | .list _ =>
    (buffers.getD 0 []).length ≥ (offset + length + 1) * 4 &&
      offsetsEntry (buffers.getD 0 []) 4 (offset + length) ≤
        (children.getD 0 ArrayData.empty).length
  | t =>
    match t.primLayout with
    | some (w, _) => (buffers.getD 0 []).length ≥ (offset + length) * w
    | none => true

/-- Offsets monotonicity invariant of §3: the offsets buffer is
non-decreasing over `[offset, offset+length]`, starting from a non-negative
entry (offsets index into the value region, so a negative entry can address
nothing). -/
def offsetsMonotoneOk (t : DataType) (length offset : Nat)
    (buffers : List Buffer) : Bool :=
  match t.offsetWidth with
  | none => true
  | some w =>
    let offs := buffers.getD 0 []
    decide (0 ≤ readIntLE offs (offset * w) w) &&
      (List.range length).all fun i =>
        decide (readIntLE offs ((offset + i) * w) w ≤
          readIntLE offs ((offset + i + 1) * w) w)

/-- Bitmap size invariant of §3: `null_bitmap`, if present, has at least
`ceil((offset+length)/8)` bytes. -/
def bitmapSizeOk (length offset : Nat) (nullBitmap : Option Buffer) : Bool :=
  match nullBitmap with
  | none => true
  | some bm => bm.length * 8 ≥ offset + length

/-- Modelled from the spec:
`build(data_type, length, null_count, offset, buffers, child_data,
null_bitmap)` eagerly validates every invariant in §3 and fails with
ValidationError naming which invariant failed (arity, buffer-too-small,
offsets-not-monotonic, bitmap-too-small) rather than producing a
partially-valid value (§4.2).  A caller-supplied `null_count` must agree
with the count of unset bits over the window; when absent it is computed
(`null_count` equals 0 with no bitmap, §3). -/
def ArrayData.build (t : DataType) (length : Nat) (nullCount : Option Nat)
    (offset : Nat) (buffers : List Buffer) (childData : List ArrayData)
    (nullBitmap : Option Buffer) : Except ArrowError ArrayData :=
  if !arityOk t buffers childData then
    .error (.validationError "arity")
  else if !buffersSizeOk t length offset buffers childData then
    .error (.validationError "buffer-too-small")
  else if !offsetsMonotoneOk t length offset buffers then
    .error (.validationError "offsets-not-monotonic")
  else if !bitmapSizeOk length offset nullBitmap then
    .error (.validationError "bitmap-too-small")
  else
    let built : ArrayData := .mk t length 0 offset buffers childData nullBitmap
    let computed := built.computedNullCount
    match nullCount with
    | some nc =>
      if nc == computed then
        .ok (.mk t length nc offset buffers childData nullBitmap)
      else .error (.validationError "null-count")
    | none => .ok (.mk t length computed offset buffers childData nullBitmap)

mutual

/-- Readability: the access-safety part of the §3 invariants, recursively
down the child arrays — exactly what guarantees that every read the typed
accessors perform on the logical window stays inside the buffers.  (The
`null_count` bookkeeping invariant is deliberately not part of it: no
accessor reads `null_count`, and a zero-copy slice per §4.2 carries the
parent's count.) -/
def ArrayData.readable : ArrayData → Bool
  | .mk t length _ offset buffers children bm =>
    arityOk t buffers children &&
    buffersSizeOk t length offset buffers children &&
    offsetsMonotoneOk t length offset buffers &&
    bitmapSizeOk length offset bm &&
    ArrayData.readableList children

def ArrayData.readableList : List ArrayData → Bool
  | [] => true
  | a :: as => ArrayData.readable a && ArrayData.readableList as

end

mutual

/-- Child-type consistency, recursively down the children: every List
node's single child carries the data type its child field declares — the
component of the §3 arity invariant (checked by `arityOk`/`readable`) that
the scalar extraction's recursion rests on.  No buffer-size invariant is
needed by the extraction theorems because every payload statement is
relational between the extraction and the typed accessors. -/
def ArrayData.childTypesOk : ArrayData → Bool
  | .mk t _ _ _ _ children _ =>
    (match t with
     | .list f => DataType.beq (children.getD 0 ArrayData.empty).dataType f.dataType
     | _ => true) && ArrayData.childTypesOkList children

/-- Child-type consistency of every array in a list. -/
def ArrayData.childTypesOkList : List ArrayData → Bool
  | [] => true
  | a :: as => a.childTypesOk && ArrayData.childTypesOkList as

end

/-! ## Array construction helpers and the Int32 builder (§4.4) -/

/-- Construction of an all-valid Int32 array from a vector of values, as
`Int32Array::from(vec![..])` produces one: a single little-endian data
buffer, no validity bitmap, offset 0. -/
def int32ArrayFrom (vs : List Int) : ArrayData :=
  .mk .int32 vs.length 0 0 [vs.flatMap (intLeBytes 4)] [] none

/-- UTF-8 byte values of a string (the example data is ASCII, for which the
code points below are exactly the UTF-8 bytes). -/
def strBytes (s : String) : List Nat :=
  s.toList.map Char.toNat

/-- Construction of an all-valid Utf8 array from a vector of strings, as
`StringArray::from(vec![..])` produces one: a 32-bit offsets buffer holding
the running byte boundaries and a concatenated value-bytes buffer. -/
def stringArrayFrom (ws : List String) : ArrayData :=
  let lens := ws.map fun w => (strBytes w).length
  let offsets := lens.foldl (fun acc l => acc ++ [acc.getLast! + l]) [0]
  .mk .utf8 ws.length 0 0
    [offsets.flatMap (fun o => leBytes 4 o), ws.flatMap strBytes] [] none

/-- Modelled from the spec: a per-type builder holds a growable values/
validity pair (§4.4).  Capacity and geometric growth are allocation
behaviour with no observable effect on the built array and are not
modelled beyond the constructor accepting the capacity hint. -/
structure Int32Builder where
  values : List Int
  validity : List Bool

/-- `Int32Builder::new(capacity)` starts empty; the capacity is a hint. -/
def Int32Builder.new (_capacity : Nat) : Int32Builder :=
  ⟨[], []⟩

/-- Modelled from the spec: `append_value(v)` appends a value and marks it
valid (§4.4). -/
def Int32Builder.appendValue (b : Int32Builder) (v : Int) : Int32Builder :=
  ⟨b.values ++ [v], b.validity ++ [true]⟩

/-- Modelled from the spec: `append_null()` appends a placeholder value and
marks it invalid (§4.4). -/
def Int32Builder.appendNull (b : Int32Builder) : Int32Builder :=
  ⟨b.values ++ [0], b.validity ++ [false]⟩

/-- Modelled from the spec: `append_slice(values)` bulk-appends, all valid
(§4.4). -/
def Int32Builder.appendSlice (b : Int32Builder) (vs : List Int) : Int32Builder :=
  ⟨b.values ++ vs, b.validity ++ List.replicate vs.length true⟩

/-- Modelled from the spec: `finish()` wraps the accumulated values and
validity bits into Buffers, produces the built array and resets the builder
to empty (§4.4); with no null appended the bitmap is omitted (§3: absent
bitmap means all valid, `null_count = 0`). -/
def Int32Builder.finish (b : Int32Builder) : ArrayData × Int32Builder :=
  let nullCount := (b.validity.filter fun v => !v).length
  let bitmap := if nullCount == 0 then none else some (packBits b.validity)
  (.mk .int32 b.values.length nullCount 0 [b.values.flatMap (intLeBytes 4)] [] bitmap,
    ⟨[], []⟩)

/-! ## RecordBatch (§4.5) -/

/-- Modelled from the spec: a RecordBatch is `{schema, columns}`, a
schema-consistent, equal-length collection of columns (§3). -/
structure RecordBatch where
  schema : Schema
  columns : List ArrayData

/-- Modelled from the spec: `try_new(schema, columns)` validates column
count equals field count (SchemaArityError), each column's data type equals
the declared field type (SchemaTypeMismatchError), and all columns share
one row count (RowCountMismatchError); returns the batch only if all checks
pass (§4.5). -/
def RecordBatch.tryNew (schema : Schema) (columns : List ArrayData) :
    Except ArrowError RecordBatch :=
  if columns.length != schema.fields.length then
    .error .schemaArityError
  else if !(columns.zip schema.fields).all
      (fun p => DataType.beq p.1.dataType p.2.dataType) then
    .error .schemaTypeMismatchError
  else if !columns.all
      (fun c => c.length == (columns.getD 0 ArrayData.empty).length) then
    .error .rowCountMismatchError
  else
    .ok ⟨schema, columns⟩

/-- Row count of a batch: the shared logical length of its columns. -/
def RecordBatch.numRows (b : RecordBatch) : Nat :=
  (b.columns.getD 0 ArrayData.empty).length

/-- Column accessor; the Rust `column(i)` panics when `i` is out of range,
modelled by the empty placeholder at each call site that guards the index
itself. -/
def RecordBatch.column (b : RecordBatch) (i : Nat) : ArrayData :=
  b.columns.getD i ArrayData.empty

/-! ## Equality kernel -/

/-- Int32 slot read used by the comparison kernel (honours the logical
offset). -/
def int32ValueAt (a : ArrayData) (i : Nat) : Int :=
  primIntAt a 4 i

/-- Modelled from the spec: the minimal elementwise equality kernel (§1,
§8) compares two Int32 arrays slot by slot into a Boolean result.  An
elementwise result exists only for inputs of one shared length; the library
kernel refuses arrays of different lengths with a compute error, modelled
as `none`. -/
def eqKernel (left right : ArrayData) : Option (List Bool) :=
  if left.length != right.length then none
  else some ((List.range left.length).map fun i =>
    decide (int32ValueAt left i = int32ValueAt right i))

/-! ## ScalarValue extraction, Table and ColumnIterator

Translated from `examples/reading_parquet.rs`.  Strings are carried as
their UTF-8 byte lists, floats as their raw bit patterns; neither
conversion loses information on the modelled code paths. -/

/-- Translated from `reading_parquet.rs` (ScalarValue enum): a dynamically
typed, nullable single value, the single-valued counterpart of an array. -/
inductive ScalarValue where
  | boolean (v : Option Bool)
  | float32 (v : Option Nat)
  | float64 (v : Option Nat)
  | int8 (v : Option Int)
  | int16 (v : Option Int)
  | int32 (v : Option Int)
  | int64 (v : Option Int)
  | uint8 (v : Option Nat)
  | uint16 (v : Option Nat)
  | uint32 (v : Option Nat)
  | uint64 (v : Option Nat)
  | utf8 (v : Option (List Nat))
  | largeUtf8 (v : Option (List Nat))
  | list (v : Option (List ScalarValue)) (t : DataType)
  | date32 (v : Option Int)
  | timeMicrosecond (v : Option Int)
  | timeNanosecond (v : Option Int)

/-- Constructor name of a data type, standing in for the Rust `Display`
formatting inside the error message of `try_from_array`. -/
def DataType.describe : DataType → String
  | .nullT => "Null"
  | .boolean => "Boolean"
  | .int8 => "Int8"
  | .int16 => "Int16"
  | .int32 => "Int32"
  | .int64 => "Int64"
  | .uint8 => "UInt8"
  | .uint16 => "UInt16"
  | .uint32 => "UInt32"
  | .uint64 => "UInt64"
  | .float32 => "Float32"
  | .float64 => "Float64"
  | .utf8 => "Utf8"
  | .largeUtf8 => "LargeUtf8"
  | .date32 => "Date32"
  | .date64 => "Date64"
  | .timeMicrosecond => "Time64(Microsecond)"
  | .timeNanosecond => "Time64(Nanosecond)"
  | .list _ => "List"
  | .struct _ => "Struct"

/-- Recursion depth of a data type along the List spine — the only
dimension `try_from_array` recurses on. -/
def DataType.depth : DataType → Nat
  | .list (.mk _ t _ _) => t.depth + 1
  | _ => 1

/-- Translated from `reading_parquet.rs` (`ScalarValue::try_from_array` and
the `typed_cast!` macro): each supported data type downcasts to its typed
array and wraps `None` when the slot is null, `Some(value(index))`
otherwise; List converts the nested sub-array element by element,
propagating the first error; every other data type is refused.  The fuel
argument is an embedding artifact for the List recursion (Rust recurses on
the heap): the wrapper below passes the data type's List depth, which the
readable-array theorems show is never exhausted. -/
def tryFromArrayF : Nat → ArrayData → Nat → Except String ScalarValue
  | 0, _, _ => .error "recursion fuel exhausted"
  | fuel + 1, a, index =>
    match a.dataType with
    | .boolean =>
      .ok (.boolean (if a.isNull index then none else some (boolAt a index)))
    | .float64 =>
      .ok (.float64 (if a.isNull index then none else some (primNatAt a 8 index)))
    | .float32 =>
      .ok (.float32 (if a.isNull index then none else some (primNatAt a 4 index)))
    | .uint64 =>
      .ok (.uint64 (if a.isNull index then none else some (primNatAt a 8 index)))
    | .uint32 =>
      .ok (.uint32 (if a.isNull index then none else some (primNatAt a 4 index)))
    | .uint16 =>
      .ok (.uint16 (if a.isNull index then none else some (primNatAt a 2 index)))
    | .uint8 =>
      .ok (.uint8 (if a.isNull index then none else some (primNatAt a 1 index)))
    | .int64 =>
      .ok (.int64 (if a.isNull index then none else some (primIntAt a 8 index)))
    | .int32 =>
      .ok (.int32 (if a.isNull index then none else some (primIntAt a 4 index)))
    | .int16 =>
      .ok (.int16 (if a.isNull index then none else some (primIntAt a 2 index)))
    | .int8 =>
      .ok (.int8 (if a.isNull index then none else some (primIntAt a 1 index)))
    | .utf8 =>
      .ok (.utf8 (if a.isNull index then none else some (varBytesAt a 4 index)))
    | .largeUtf8 =>
      .ok (.largeUtf8 (if a.isNull index then none else some (varBytesAt a 8 index)))
    | .list f =>
      if a.isNull index then .ok (.list none f.dataType)
      else
        let nested := ListArray.value a index
        match (List.range nested.length).mapM (fun i => tryFromArrayF fuel nested i) with
        | .ok vec => .ok (.list (some vec) f.dataType)
        | .error e => .error e
    | .date32 =>
      .ok (.date32 (if a.isNull index then none else some (primIntAt a 4 index)))
    | other => .error ("Downcast not available for type: " ++ other.describe)

/-- Converts a value in `array` at `index` into a ScalarValue
(`ScalarValue::try_from_array`). -/
def ScalarValue.tryFromArray (a : ArrayData) (index : Nat) : Except String ScalarValue :=
  tryFromArrayF a.dataType.depth a index

/-- Empty batch, standing where the Rust source would panic on an
out-of-bounds `Vec<RecordBatch>` index (noted at each use site). -/
def RecordBatch.emptyBatch : RecordBatch :=
  ⟨⟨[], []⟩, []⟩

/-- Translated from `reading_parquet.rs`: the Table object stores the
record batches collected from a parquet file, the schema, the total row
count and the chunk size the file was read with. -/
structure Table where
  schema : Schema
  data : List RecordBatch
  rows : Nat
  chunkSize : Nat

/-- Translated from `reading_parquet.rs` (`Table::value`): extracts the
value at the selected column and global row index.  The guard sequence is
the source's: a column beyond the schema's fields yields None; a batch
index `index / chunk_size` beyond the stored batches yields None; otherwise
the value is taken from row `index % chunk_size` of that batch.  (Rust's
`usize` division panics on `chunk_size = 0`, where Nat division yields 0;
the theorems therefore take a positive chunk size.  The inner batch lookup
is guarded, so its placeholder default is never selected.) -/
def Table.value (t : Table) (column index : Nat) : Option ScalarValue :=
  if column ≥ t.schema.fields.length then none
  else
    let batch := index / t.chunkSize
    if batch ≥ t.data.length then none
    else
      let array := (t.data.getD batch RecordBatch.emptyBatch).column column
      let indexInBatch := index % t.chunkSize
      (ScalarValue.tryFromArray array indexInBatch).toOption

/-- Translated from `reading_parquet.rs` (ColumnIterator): cursor state
over the batches of one column. -/
structure ColumnIterator where
  column : Nat
  data : List RecordBatch
  index : Nat
  batch : Nat

/-- `ColumnIterator::new` starts at row 0 of batch 0. -/
def ColumnIterator.new (column : Nat) (data : List RecordBatch) : ColumnIterator :=
  ⟨column, data, 0, 0⟩

/-- `Table::column_iterator`. -/
def Table.columnIterator (t : Table) (column : Nat) : ColumnIterator :=
  .new column t.data

/-- Translated from `reading_parquet.rs` (`ColumnIterator::next`): computes
the advanced cursor `(next_record, next_batch)` — wrapping to the next
batch when `index + 1` reaches the current batch's record count — and
returns None as soon as `next_batch` reaches the number of batches,
otherwise yields the scalar at the current position and stores the advanced
cursor.  The outer Option models the Rust panic on `self.data[self.batch]`
when the data vector is empty (the only state reaching that read with
`batch` out of bounds); the inner Option is the iterator's own yield. -/
def ColumnIterator.next (it : ColumnIterator) :
    Option (Option ScalarValue × ColumnIterator) :=
  match it.data.get? it.batch with
  | none => none
  | some rb =>
    let records := (rb.column it.column).length
    let nextPos :=
      if it.index + 1 ≥ records then (0, it.batch + 1) else (it.index + 1, it.batch)
    if nextPos.2 ≥ it.data.length then some (none, it)
    else
      let array := rb.column it.column
      let value := (ScalarValue.tryFromArray array it.index).toOption
      some (value, { it with index := nextPos.1, batch := nextPos.2 })

/-- Drives the iterator the way the example's `for` loop does, collecting
the yielded values until the iterator returns None (or would panic); the
fuel bounds the number of `next` calls. -/
def ColumnIterator.collect : Nat → ColumnIterator → List ScalarValue
  | 0, _ => []
  | fuel + 1, it =>
    match it.next with
    | none => []
    | some (none, _) => []
    | some (some v, it2) => v :: ColumnIterator.collect fuel it2

/-! ## IPC stream protocol (§4.6)

Modelled from the spec.  The frame layout is the spec's bit-exact contract:
4-byte continuation marker (all-ones = more data, all-zeros = end of
stream), 4-byte little-endian metadata length, metadata bytes, padding to
an 8-byte boundary, then the raw body — for a record batch the
concatenation of every buffer (validity bitmap first, then data/offsets
buffers) from every column in depth-first pre-order.  The metadata payload
itself is only constrained to be "a self-describing encoding" of either a
schema or a record-batch header (field nodes, buffer byte-ranges, total
body length); the concrete length-prefixed encoding below is one such. -/

/-- Padding needed to reach the next 8-byte boundary after `n` bytes. -/
def pad8 (n : Nat) : Nat :=
  (8 - n % 8) % 8

/-- Length-prefixed string encoding: character count, then each code point
as 4 little-endian bytes. -/
def encodeStr (s : String) : List Nat :=
  leBytes 4 s.length ++ s.toList.flatMap fun c => leBytes 4 c.toNat

/-- Length-prefixed encoding of a string-to-string mapping. -/
def encodePairs (m : List (String × String)) : List Nat :=
  leBytes 4 m.length ++ m.flatMap fun p => encodeStr p.1 ++ encodeStr p.2

mutual

/-- Tag-prefixed encoding of a data type; List and Struct carry their child
fields after the tag. -/
def encodeDataType : DataType → List Nat
  | .list f => 18 :: encodeField f
  | .struct fs => 19 :: (leBytes 4 fs.length ++ encodeFieldList fs)
  | t => [t.tag]

/-- Encoding of one field: name, data type, nullable flag, metadata. -/
def encodeField : Field → List Nat
  | .mk n t b m =>
    encodeStr n ++ encodeDataType t ++ [if b then 1 else 0] ++ encodePairs m

/-- Concatenated encoding of a field sequence. -/
def encodeFieldList : List Field → List Nat
  | [] => []
  | f :: fs => encodeField f ++ encodeFieldList fs

end

/-- Encoding of a schema: field count, fields, metadata. -/
def encodeSchema (s : Schema) : List Nat :=
  leBytes 4 s.fields.length ++ encodeFieldList s.fields ++ encodePairs s.metadata

/-- Schema message: kind byte 0, then the schema. -/
def schemaMessage (s : Schema) : List Nat :=
  0 :: encodeSchema s

mutual

/-- Field nodes of one column in depth-first pre-order: the column's
`(length, null_count)`, then its children's nodes. -/
def columnNodes : ArrayData → List (Nat × Nat)
  | .mk _ len nc _ _ children _ => (len, nc) :: columnNodesList children

def columnNodesList : List ArrayData → List (Nat × Nat)
  | [] => []
  | a :: as => columnNodes a ++ columnNodesList as

end

mutual

/-- Buffers of one column in depth-first pre-order: the validity bitmap
(an empty buffer when absent), the column's own data/offsets buffers, then
its children's buffers. -/
def columnBuffers : ArrayData → List Buffer
  | .mk _ _ _ _ bufs children bm =>
    (match bm with | some b => b | none => []) :: (bufs ++ columnBuffersList children)

def columnBuffersList : List ArrayData → List Buffer
  | [] => []
  | a :: as => columnBuffers a ++ columnBuffersList as

end

/-- Byte ranges `(start, length)` of consecutively laid-out buffers. -/
def bufferRanges : Nat → List Buffer → List (Nat × Nat)
  | _, [] => []
  | off, b :: rest => (off, b.length) :: bufferRanges (off + b.length) rest

/-- Record-batch frame body: the concatenation of every buffer of every
column in depth-first pre-order. -/
def batchBody (b : RecordBatch) : List Nat :=
  (columnBuffersList b.columns).flatten

/-- Record-batch message: kind byte 1, the field nodes, the buffer
byte-ranges, and the total body length. -/
def batchMessage (b : RecordBatch) : List Nat :=
  let nodes := columnNodesList b.columns
  let ranges := bufferRanges 0 (columnBuffersList b.columns)
  1 :: (leBytes 4 nodes.length ++
    nodes.flatMap (fun p => leBytes 4 p.1 ++ leBytes 4 p.2) ++
    leBytes 4 ranges.length ++
    ranges.flatMap (fun p => leBytes 4 p.1 ++ leBytes 4 p.2) ++
    leBytes 4 (batchBody b).length)

/-- One framed message: continuation marker, metadata length, metadata,
padding to the 8-byte boundary, body. -/
def encodeFrame (meta body : List Nat) : List Nat :=
  [255, 255, 255, 255] ++ leBytes 4 meta.length ++ meta ++
    List.replicate (pad8 (8 + meta.length)) 0 ++ body

/-- End-of-stream marker: the all-zeros continuation marker. -/
def eosMarker : List Nat :=
  [0, 0, 0, 0]

/-- Modelled from the spec: the stream writer (§4.6), `Created →
SchemaSent → Streaming → Finished`; the sink accumulates the emitted
bytes. -/
structure StreamWriter where
  schema : Schema
  sink : List Nat
  finished : Bool

/-- Modelled from the spec: `try_new(sink, schema)` emits one schema frame
(§4.6). -/
def StreamWriter.tryNew (schema : Schema) : StreamWriter :=
  ⟨schema, encodeFrame (schemaMessage schema) [], false⟩

/-- Modelled from the spec: `write(batch)` validates the batch's schema
equals the stream's declared schema (SchemaMismatchError) and emits one
record-batch frame; any write after `finish` fails StreamClosedError
(§4.6). -/
def StreamWriter.write (w : StreamWriter) (b : RecordBatch) :
    Except ArrowError StreamWriter :=
  if w.finished then .error .streamClosedError
  else if !Schema.beq b.schema w.schema then .error .schemaMismatchError
  else .ok ⟨w.schema, w.sink ++ encodeFrame (batchMessage b) (batchBody b), false⟩

/-- Modelled from the spec: `finish()` emits the zero-length end-of-stream
marker and transitions to Finished (§4.6). -/
def StreamWriter.finish (w : StreamWriter) : StreamWriter :=
  ⟨w.schema, w.sink ++ eosMarker, true⟩

/-! ### Decoding -/

/-- Reads `k` bytes, failing when fewer remain. -/
def readN (k : Nat) (bs : List Nat) : Option (List Nat × List Nat) :=
  if k ≤ bs.length then some (bs.take k, bs.drop k) else none

/-- Reads a 4-byte little-endian unsigned length. -/
def readU32 (bs : List Nat) : Option (Nat × List Nat) :=
  (readN 4 bs).map fun p => (leNat p.1, p.2)

/-- Reads `n` 4-byte code points. -/
def readChars : Nat → List Nat → Option (List Char × List Nat)
  | 0, bs => some ([], bs)
  | n + 1, bs => do
    let (c, r) ← readU32 bs
    let (cs, r2) ← readChars n r
    some (Char.ofNat c :: cs, r2)

/-- Reads a length-prefixed string. -/
def readStr (bs : List Nat) : Option (String × List Nat) := do
  let (n, r) ← readU32 bs
  let (cs, r2) ← readChars n r
  some (String.mk cs, r2)

/-- Reads a length-prefixed string-to-string mapping. -/
def readPairsN : Nat → List Nat → Option (List (String × String) × List Nat)
  | 0, bs => some ([], bs)
  | n + 1, bs => do
    let (k, r) ← readStr bs
    let (v, r2) ← readStr r
    let (rest, r3) ← readPairsN n r2
    some ((k, v) :: rest, r3)

def readPairs (bs : List Nat) : Option (List (String × String) × List Nat) := do
  let (n, r) ← readU32 bs
  readPairsN n r

/-- Inverse of the scalar type tags. -/
def scalarOfTag : Nat → Option DataType
  | 0 => some .nullT
  | 1 => some .boolean
  | 2 => some .int8
  | 3 => some .int16
  | 4 => some .int32
  | 5 => some .int64
  | 6 => some .uint8
  | 7 => some .uint16
  | 8 => some .uint32
  | 9 => some .uint64
  | 10 => some .float32
  | 11 => some .float64
  | 12 => some .utf8
  | 13 => some .largeUtf8
  | 14 => some .date32
  | 15 => some .date64
  | 16 => some .timeMicrosecond
  | 17 => some .timeNanosecond
  | _ => none

mutual

/-- Parses an encoded data type; the fuel bounds the List/Struct nesting
and is never exhausted when set to the input length. -/
def parseDataType : Nat → List Nat → Option (DataType × List Nat)
  | 0, _ => none
  | fuel + 1, bs =>
    match bs with
    | [] => none
    | 18 :: rest => (parseField fuel rest).map fun p => (.list p.1, p.2)
    | 19 :: rest => do
      let (n, r2) ← readU32 rest
      let (fs, r3) ← parseFieldsN fuel n r2
      some (.struct fs, r3)
    | tagByte :: rest => (scalarOfTag tagByte).map fun t => (t, rest)

/-- Parses one encoded field. -/
def parseField : Nat → List Nat → Option (Field × List Nat)
  | 0, _ => none
  | fuel + 1, bs => do
    let (n, r1) ← readStr bs
    let (t, r2) ← parseDataType fuel r1
    match r2 with
    | [] => none
    | flag :: r3 => do
      let (m, r4) ← readPairs r3
      some (.mk n t (flag == 1) m, r4)

/-- Parses `n` consecutive encoded fields. -/
def parseFieldsN : Nat → Nat → List Nat → Option (List Field × List Nat)
  | 0, _, _ => none
  | _ + 1, 0, bs => some ([], bs)
  | fuel + 1, n + 1, bs => do
    let (f, r) ← parseField fuel bs
    let (fs, r2) ← parseFieldsN fuel n r
    some (f :: fs, r2)

end

/-- Parses an encoded schema. -/
def parseSchema (bs : List Nat) : Option (Schema × List Nat) := do
  let (n, r) ← readU32 bs
  let (fs, r2) ← parseFieldsN (bs.length + 1) n r
  let (m, r3) ← readPairs r2
  some (⟨fs, m⟩, r3)

/-- Parses `n` `(length, null_count)` field nodes or `(start, length)`
buffer ranges. -/
def readNatPairsN : Nat → List Nat → Option (List (Nat × Nat) × List Nat)
  | 0, bs => some ([], bs)
  | n + 1, bs => do
    let (x, r) ← readU32 bs
    let (y, r2) ← readU32 r
    let (rest, r3) ← readNatPairsN n r2
    some ((x, y) :: rest, r3)

/-- Parses a record-batch message body (after the kind byte): field nodes,
buffer ranges, total body length; the metadata must end there. -/
def parseBatchHeader (bs : List Nat) :
    Option (List (Nat × Nat) × List (Nat × Nat) × Nat) := do
  let (nNodes, r1) ← readU32 bs
  let (nodes, r2) ← readNatPairsN nNodes r1
  let (nRanges, r3) ← readU32 r2
  let (ranges, r4) ← readNatPairsN nRanges r3
  let (bodyLen, r5) ← readU32 r4
  if r5.isEmpty then some (nodes, ranges, bodyLen) else none

mutual

/-- Reconstructs one column of type `t` from the field-node and
buffer-range streams over the frame body, returning the remaining streams:
the column's node, its validity-bitmap range (empty = absent), its
data/offsets buffer ranges, then recursively its children — the exact
pre-order the writer emits. -/
def reconColumn (t : DataType) (nodes ranges : List (Nat × Nat))
    (body : List Nat) : Option (ArrayData × List (Nat × Nat) × List (Nat × Nat)) :=
  match nodes, ranges with
  | (len, nc) :: nodes1, (boff, blen) :: ranges1 =>
    let bm := if blen == 0 then none else some ((body.drop boff).take blen)
    match t with
    | .nullT => some (.mk t len nc 0 [] [] bm, nodes1, ranges1)
    | .list (Field.mk _ childType _ _) =>
      match ranges1 with
      | (o1, l1) :: ranges2 =>
        match reconColumn childType nodes1 ranges2 body with
        | some (child, nodes2, ranges3) =>
          some (.mk t len nc 0 [(body.drop o1).take l1] [child] bm, nodes2, ranges3)
        | none => none
      | [] => none
    | .struct fs =>
      match reconColumnList fs nodes1 ranges1 body with
      | some (children, nodes2, ranges2) =>
        some (.mk t len nc 0 [] children bm, nodes2, ranges2)
      | none => none
    | .utf8 =>
      match ranges1 with
      | (o1, l1) :: (o2, l2) :: ranges2 =>
        some (.mk t len nc 0
          [(body.drop o1).take l1, (body.drop o2).take l2] [] bm, nodes1, ranges2)
      | _ => none
    | .largeUtf8 =>
      match ranges1 with
      | (o1, l1) :: (o2, l2) :: ranges2 =>
        some (.mk t len nc 0
          [(body.drop o1).take l1, (body.drop o2).take l2] [] bm, nodes1, ranges2)
      | _ => none
    | t2 =>
      match ranges1 with
      | (o1, l1) :: ranges2 =>
        some (.mk t2 len nc 0 [(body.drop o1).take l1] [] bm, nodes1, ranges2)
      | [] => none
  | _, _ => none

/-- Reconstructs the columns declared by a field sequence. -/
def reconColumnList (fs : List Field) (nodes ranges : List (Nat × Nat))
    (body : List Nat) :
    Option (List ArrayData × List (Nat × Nat) × List (Nat × Nat)) :=
  match fs with
  | [] => some ([], nodes, ranges)
  | Field.mk _ fType _ _ :: rest =>
    match reconColumn fType nodes ranges body with
    | some (c, nodes1, ranges1) =>
      match reconColumnList rest nodes1 ranges1 body with
      | some (cs, nodes2, ranges2) => some (c :: cs, nodes2, ranges2)
      | none => none
    | none => none

end

/-- Head of the byte stream: end of data, the end-of-stream marker, one
frame's metadata (with the remaining bytes after the padding), or a
malformed frame (bad continuation marker or truncated metadata, §4.6). -/
inductive FrameHead where
  | streamEnd
  | eosMark
  | frameMeta (meta rest : List Nat)
  | malformed

def readFrameHead (bs : List Nat) : FrameHead :=
  if bs.isEmpty then .streamEnd
  else
    match readN 4 bs with
    | none => .malformed
    | some (marker, rest) =>
      if marker == [0, 0, 0, 0] then .eosMark
      else if marker != [255, 255, 255, 255] then .malformed
      else
        match readU32 rest with
        | none => .malformed
        | some (metaLen, rest2) =>
          match readN metaLen rest2 with
          | none => .malformed
          | some (meta, rest3) =>
            match readN (pad8 (8 + metaLen)) rest3 with
            | none => .malformed
            | some (_, rest4) => .frameMeta meta rest4

/-- Decodes one record-batch frame's metadata and body into a batch over
the stream's schema, returning the bytes after the frame. -/
def decodeBatchFrame (schema : Schema) (meta rest : List Nat) :
    Option (RecordBatch × List Nat) :=
  match meta with
  | 1 :: metaRest => do
    let (nodes, ranges, bodyLen) ← parseBatchHeader metaRest
    let (body, rest2) ← readN bodyLen rest
    match reconColumnList schema.fields nodes ranges body with
    | some (cols, [], []) => some (⟨schema, cols⟩, rest2)
    | _ => none
  | _ => none

/-- Modelled from the spec: the reader's lazy batch sequence (§4.6) — each
step reads one frame; the end-of-stream marker or the stream's end of data
ends the sequence, and a malformed frame ends it after the IpcFormatError.
The fuel bounds the number of frames and is never exhausted when set above
the byte count (every frame consumes at least 8 bytes). -/
def readBatches (schema : Schema) : Nat → List Nat → List RecordBatch
  | 0, _ => []
  | fuel + 1, bs =>
    match readFrameHead bs with
    | .frameMeta meta rest =>
      match decodeBatchFrame schema meta rest with
      | some (batch, rest2) => batch :: readBatches schema fuel rest2
      | none => []
    | _ => []

/-- Modelled from the spec: `try_new(source)` reads exactly one schema
frame — absence or malformation fails IpcFormatError (§4.6) — and the
subsequent reads produce the finite batch sequence. -/
def decodeStream (bs : List Nat) : Except ArrowError (Schema × List RecordBatch) :=
  match readFrameHead bs with
  | .frameMeta meta rest =>
    match meta with
    | 0 :: metaRest =>
      match parseSchema metaRest with
      | some (schema, []) => .ok (schema, readBatches schema (rest.length + 1) rest)
      | _ => .error .ipcFormatError
    | _ => .error .ipcFormatError
  | _ => .error .ipcFormatError

/-! ## Supported-type predicates and scalar/array agreement

Vocabulary for stating what `try_from_array` achieves. -/

/-- Data types with a conversion arm in `try_from_array` — the enumeration
"Boolean, the integer and float widths, Utf8, LargeUtf8, List, Date32",
judged on the top-level constructor only. -/
def DataType.supportedTop : DataType → Bool
  | .boolean => true
  | .int8 | .int16 | .int32 | .int64 => true
  | .uint8 | .uint16 | .uint32 | .uint64 => true
  | .float32 | .float64 => true
  | .utf8 | .largeUtf8 => true
  | .date32 => true
  | .list _ => true
  | .nullT | .date64 | .timeMicrosecond | .timeNanosecond | .struct _ => false

/-- Recursively supported data types: as `supportedTop`, but a List is
supported only when its element data type is itself supported — the types
whose arrays `try_from_array` converts in full. -/
def DataType.supportedRec : DataType → Bool
  | .list (.mk _ t _ _) => t.supportedRec
  | .boolean => true
  | .int8 | .int16 | .int32 | .int64 => true
  | .uint8 | .uint16 | .uint32 | .uint64 => true
  | .float32 | .float64 => true
  | .utf8 | .largeUtf8 => true
  | .date32 => true
  | .nullT | .date64 | .timeMicrosecond | .timeNanosecond | .struct _ => false

/-- Data-type tag a scalar variant corresponds to (`typed_cast!` pairs each
supported data type with exactly one ScalarValue variant). -/
def ScalarValue.typeTag : ScalarValue → Nat
  | .boolean _ => 1
  | .int8 _ => 2
  | .int16 _ => 3
  | .int32 _ => 4
  | .int64 _ => 5
  | .uint8 _ => 6
  | .uint16 _ => 7
  | .uint32 _ => 8
  | .uint64 _ => 9
  | .float32 _ => 10
  | .float64 _ => 11
  | .utf8 _ => 12
  | .largeUtf8 _ => 13
  | .date32 _ => 14
  | .timeMicrosecond _ => 16
  | .timeNanosecond _ => 17
  | .list _ _ => 18

/-- The scalar variant matching the array's data type: tags agree, and a
List scalar carries the element data type the field declares. -/
def scalarMatches (v : ScalarValue) (t : DataType) : Bool :=
  v.typeTag == t.tag &&
    match v, t with
    | .list _ et, .list (.mk _ ct _ _) => DataType.beq et ct
    | _, _ => true

/-- Whether the scalar carries None (a null slot) rather than a value. -/
def ScalarValue.isNullValue : ScalarValue → Bool
  | .boolean v => v.isNone
  | .int8 v => v.isNone
  | .int16 v => v.isNone
  | .int32 v => v.isNone
  | .int64 v => v.isNone
  | .uint8 v => v.isNone
  | .uint16 v => v.isNone
  | .uint32 v => v.isNone
  | .uint64 v => v.isNone
  | .float32 v => v.isNone
  | .float64 v => v.isNone
  | .utf8 v => v.isNone
  | .largeUtf8 v => v.isNone
  | .date32 v => v.isNone
  | .timeMicrosecond v => v.isNone
  | .timeNanosecond v => v.isNone
  | .list v _ => v.isNone

/-- A non-null scalar's payload is the value the typed accessor stores at
the slot: fixed-width and variable-length payloads equal the `readCell`
result, and a List payload converts the derived sub-array element by
element.  (A None payload asserts nothing; nullness itself is related to
the validity bit separately.) -/
def payloadAgrees : ScalarValue → ArrayData → Nat → Prop
  | .boolean (some x), a, i => readCell a i = some (.bool x)
  | .int8 (some x), a, i => readCell a i = some (.int x)
  | .int16 (some x), a, i => readCell a i = some (.int x)
  | .int32 (some x), a, i => readCell a i = some (.int x)
  | .int64 (some x), a, i => readCell a i = some (.int x)
  | .uint8 (some x), a, i => readCell a i = some (.nat x)
  | .uint16 (some x), a, i => readCell a i = some (.nat x)
  | .uint32 (some x), a, i => readCell a i = some (.nat x)
  | .uint64 (some x), a, i => readCell a i = some (.nat x)
  | .float32 (some x), a, i => readCell a i = some (.nat x)
  | .float64 (some x), a, i => readCell a i = some (.nat x)
  | .utf8 (some bs), a, i => readCell a i = some (.bytes bs)
  | .largeUtf8 (some bs), a, i => readCell a i = some (.bytes bs)
  | .date32 (some x), a, i => readCell a i = some (.int x)
  | .list (some vs) _, a, i =>
    vs.length = (ListArray.value a i).length ∧
      ∀ j (hj : j < vs.length),
        ScalarValue.tryFromArray (ListArray.value a i) j = .ok (vs.get ⟨j, hj⟩)
  | _, _, _ => True

/-! ## Column-iterator cell bookkeeping -/

/-- Extraction results for the rows of one batch's column `c` from row `i`
on, in row order. -/
def batchCellsFrom (c : Nat) (rb : RecordBatch) (i : Nat) : List (Option ScalarValue) :=
  ((List.range (rb.column c).length).drop i).map fun j =>
    (ScalarValue.tryFromArray (rb.column c) j).toOption

/-- Extraction results for all cells of column `c` from batch `b`, row `i`
onward: the rest of batch `b`, then every later batch in full. -/
def cellsFrom (c : Nat) (data : List RecordBatch) (b i : Nat) : List (Option ScalarValue) :=
  match data.drop b with
  | [] => []
  | rb :: rest => batchCellsFrom c rb i ++ rest.flatMap fun rb2 => batchCellsFrom c rb2 0

/-- Extraction results for every cell of column `c`, in iteration order. -/
def columnCells (c : Nat) (data : List RecordBatch) : List (Option ScalarValue) :=
  cellsFrom c data 0 0

/-! ## Concrete data of the specification's test scenarios -/

/-- Schema `{index: Int32 not-null, word: Utf8 not-null}` of the wire
round-trip scenario. -/
def ipcSchema : Schema :=
  ⟨[.mk "index" .int32 false [], .mk "word" .utf8 false []], []⟩

/-- Batch `index=[1,2,3,4,5], word=["one","two","three","four","five"]`. -/
def ipcBatch : RecordBatch :=
  ⟨ipcSchema, [int32ArrayFrom [1, 2, 3, 4, 5],
               stringArrayFrom ["one", "two", "three", "four", "five"]]⟩

/-- The array `a` of the equality-kernel scenario (`arrays_operations.rs`). -/
def opsA : ArrayData := int32ArrayFrom [6, 7, 8, 8, 10]

/-- The array `b = [1..10]` of the equality-kernel scenario. -/
def opsB : ArrayData := int32ArrayFrom [1, 2, 3, 4, 5, 6, 7, 8, 9, 10]

/-- The 20 value bytes of the Utf8 scenario (`arrays_nested.rs`). -/
def utf8Values : List Nat := strBytes "hellofromApacheArrow"

/-- Offsets buffer `[0,5,9,9,15,20]` as 32-bit little-endian entries. -/
def utf8Offsets : List Nat := [0, 5, 9, 9, 15, 20].flatMap (leBytes 4)

/-- The same buffer with the decreasing adjacent pair `9, 8`. -/
def utf8BadOffsets : List Nat := [0, 5, 9, 8, 15, 20].flatMap (leBytes 4)

/-- The 10-element Int32 child of the List scenario. -/
def listChild : ArrayData := int32ArrayFrom [1, 2, 3, 4, 5, 6, 7, 8, 9, 10]

/-- Offsets buffer `[0,2,4,7,7,8,10]` as 32-bit little-endian entries. -/
def listOffsets : List Nat := [0, 2, 4, 7, 7, 8, 10].flatMap (leBytes 4)

/-- The `List(item: Int32)` data type of the List scenario. -/
def listType : DataType := .list (.mk "item" .int32 false [])

/-- Builder steps of the builder round-trip scenario:
`append_value(5); append_null(); append_value(7); append_null();
append_value(9); finish()`. -/
def builderResult : ArrayData × Int32Builder :=
  (((((Int32Builder.new 20).appendValue 5).appendNull).appendValue
    7).appendNull.appendValue 9).finish

/-- Three-field schema for the row-count-mismatch scenario. -/
def c6Schema : Schema :=
  ⟨[.mk "a" .int32 false [], .mk "b" .int32 false [], .mk "c" .int32 false []], []⟩

/-- Single three-row Int32 batch driving the column-iterator witness. -/
def c8Batch : RecordBatch :=
  ⟨⟨[.mk "v" .int32 false []], []⟩, [int32ArrayFrom [10, 20, 30]]⟩

/-- A readable `List(item: Date64)` array with one non-null, one-element
slot: offsets `[0,1]` over a one-element Date64 child. -/
def listDate64Array : ArrayData :=
  .mk (.list (.mk "item" .date64 false [])) 1 0 0
    [[0, 1].flatMap (leBytes 4)] [.mk .date64 1 0 0 [leBytes 8 0] [] none] none

/-! ## Supporting lemmas -/

theorem dataType_beq_iff {a b : DataType} : DataType.beq a b = true ↔ a = b :=
  ⟨DataType.eq_of_beq, fun h => h ▸ DataType.beq_refl a⟩

theorem schema_beq_iff {s1 s2 : Schema} : Schema.beq s1 s2 = true ↔ s1 = s2 := by
  cases s1; cases s2
  simp only [Schema.beq, Bool.and_eq_true, beq_iff_eq, Schema.mk.injEq]
  constructor
  · rintro ⟨h1, h2⟩
    exact ⟨Field.eqList_of_beq h1, h2⟩
  · rintro ⟨h1, h2⟩
    subst h1
    exact ⟨Field.beqList_refl _, h2⟩


/-- Reading a slot of a zero-copy slice is reading the parent at the
shifted index: every typed accessor addresses `offset + i`, and the slice
only advanced the offset. -/
theorem readCell_sliceRaw (a : ArrayData) (o l i : Nat) :
    readCell (a.sliceRaw o l) i = readCell a (o + i) := by
  cases a with
  | mk t len nc off bufs children bm =>
    cases t <;>
      simp [readCell, ArrayData.sliceRaw, ArrayData.dataType, ArrayData.offset,
        ArrayData.buffers, ArrayData.childData, ArrayData.nullBitmap,
        ArrayData.nullCount, ArrayData.length, primNatAt, primIntAt, boolAt,
        varBytesAt, ListArray.value, offsetsEntry, DataType.primLayout,
        Nat.add_assoc]

theorem range_drop_cons {n i : Nat} (h : i < n) :
    (List.range n).drop i = i :: (List.range n).drop (i + 1) := by
  rw [List.drop_eq_getElem_cons (by simpa using h)]
  simp

theorem batchCellsFrom_cons {c : Nat} {rb : RecordBatch} {i : Nat}
    (h : i < (rb.column c).length) :
    batchCellsFrom c rb i =
      (ScalarValue.tryFromArray (rb.column c) i).toOption :: batchCellsFrom c rb (i + 1) := by
  unfold batchCellsFrom
  rw [range_drop_cons h]
  simp

theorem batchCellsFrom_last {c : Nat} {rb : RecordBatch} {i : Nat}
    (h : i + 1 = (rb.column c).length) :
    batchCellsFrom c rb i = [(ScalarValue.tryFromArray (rb.column c) i).toOption] := by
  rw [batchCellsFrom_cons (by omega)]
  unfold batchCellsFrom
  rw [List.drop_of_length_le (by simp; omega)]
  rfl

theorem batchCellsFrom_ne_nil {c : Nat} {rb : RecordBatch} {i : Nat}
    (h : i < (rb.column c).length) : batchCellsFrom c rb i ≠ [] := by
  rw [batchCellsFrom_cons h]
  exact List.cons_ne_nil _ _

theorem cellsFrom_ne_nil {c : Nat} {data : List RecordBatch} {b i : Nat}
    (hb : b < data.length)
    (hi : i < ((data.get ⟨b, hb⟩).column c).length) :
    cellsFrom c data b i ≠ [] := by
  unfold cellsFrom
  rw [List.drop_eq_getElem_cons (by simpa using hb)]
  intro hcontra
  rw [List.append_eq_nil] at hcontra
  exact batchCellsFrom_ne_nil (by simpa using hi) (by simpa using hcontra.1)

theorem collect_succ (fuel : Nat) (it : ColumnIterator) :
    ColumnIterator.collect (fuel + 1) it =
      match it.next with
      | none => []
      | some (none, _) => []
      | some (some v, it2) => v :: ColumnIterator.collect fuel it2 := rfl

theorem next_last {c : Nat} {data : List RecordBatch} {b i : Nat} {rb : RecordBatch}
    (hget : data[b]? = some rb) (hlast : (rb.column c).length ≤ i + 1)
    (hlastb : data.length ≤ b + 1) :
    ColumnIterator.next ⟨c, data, i, b⟩ = some (none, ⟨c, data, i, b⟩) := by
  unfold ColumnIterator.next
  simp [hget, hlast, hlastb]

theorem next_advance_batch {c : Nat} {data : List RecordBatch} {b i : Nat} {rb : RecordBatch}
    (hget : data[b]? = some rb) (hlast : (rb.column c).length ≤ i + 1)
    (hmore : b + 1 < data.length) :
    ColumnIterator.next ⟨c, data, i, b⟩ =
      some ((ScalarValue.tryFromArray (rb.column c) i).toOption, ⟨c, data, 0, b + 1⟩) := by
  unfold ColumnIterator.next
  simp [hget, hlast, Nat.not_le.mpr hmore]

theorem next_advance_row {c : Nat} {data : List RecordBatch} {b i : Nat} {rb : RecordBatch}
    (hget : data[b]? = some rb) (hb : b < data.length)
    (hlast : ¬((rb.column c).length ≤ i + 1)) :
    ColumnIterator.next ⟨c, data, i, b⟩ =
      some ((ScalarValue.tryFromArray (rb.column c) i).toOption, ⟨c, data, i + 1, b⟩) := by
  unfold ColumnIterator.next
  simp [hget, hlast, Nat.not_le.mpr hb]

theorem collect_cellsFrom :
    ∀ (fuel c : Nat) (data : List RecordBatch) (b i : Nat)
      (hb : b < data.length),
      i < ((data.get ⟨b, hb⟩).column c).length →
      (∀ rb ∈ data, 1 ≤ (rb.column c).length) →
      (∀ rb ∈ data, ∀ j, j < (rb.column c).length →
        ((ScalarValue.tryFromArray (rb.column c) j).toOption).isSome = true) →
      (cellsFrom c data b i).length ≤ fuel →
      ColumnIterator.collect fuel ⟨c, data, i, b⟩ =
        ((cellsFrom c data b i).dropLast).reduceOption := by
  intro fuel
  induction fuel with
  | zero =>
    intro c data b i hb hi hne hok hfuel
    exact absurd (List.length_eq_zero.mp (Nat.le_zero.mp hfuel))
      (cellsFrom_ne_nil hb hi)
  | succ fuel ih =>
    intro c data b i hb hi hne hok hfuel
    have hget : data[b]? = some (data.get ⟨b, hb⟩) := by
      rw [List.getElem?_eq_getElem hb, List.get_eq_getElem]
    set rb := data.get ⟨b, hb⟩ with hrb
    have hdrop : data.drop b = rb :: data.drop (b + 1) := by
      rw [List.drop_eq_getElem_cons (by simpa using hb)]
      simp [hrb]
    have hcells : cellsFrom c data b i =
        batchCellsFrom c rb i ++ (data.drop (b + 1)).flatMap fun rb2 => batchCellsFrom c rb2 0 := by
      unfold cellsFrom
      rw [hdrop]
    by_cases hlast : (rb.column c).length ≤ i + 1
    · have hieq : i + 1 = (rb.column c).length := by omega
      have hbatch := batchCellsFrom_last hieq
      by_cases hlastb : data.length ≤ b + 1
      · have hdropb : data.drop (b + 1) = [] := List.drop_of_length_le (by omega)
        rw [collect_succ, next_last hget hlast hlastb]
        show ([] : List ScalarValue) = (cellsFrom c data b i).dropLast.reduceOption
        rw [hcells, hbatch, hdropb]
        simp
      · push_neg at hlastb
        have hb2 : b + 1 < data.length := hlastb
        have hmem2 : data.get ⟨b + 1, hb2⟩ ∈ data := List.get_mem data (b + 1) hb2
        have hi2 : 0 < ((data.get ⟨b + 1, hb2⟩).column c).length := hne _ hmem2
        have hmem : rb ∈ data := List.get_mem data b hb
        have hsome := hok rb hmem i (by omega)
        obtain ⟨sv, hsv⟩ := Option.isSome_iff_exists.mp hsome
        have hnext : cellsFrom c data (b + 1) 0 =
            (data.drop (b + 1)).flatMap fun rb2 => batchCellsFrom c rb2 0 := by
          unfold cellsFrom
          rw [List.drop_eq_getElem_cons (by simpa using hb2)]
          rfl
        have hcellsplit : cellsFrom c data b i =
            (ScalarValue.tryFromArray (rb.column c) i).toOption :: cellsFrom c data (b + 1) 0 := by
          rw [hcells, hbatch, hnext]
          simp
        have hne2 : cellsFrom c data (b + 1) 0 ≠ [] := cellsFrom_ne_nil hb2 hi2
        have hfuel2 : (cellsFrom c data (b + 1) 0).length ≤ fuel := by
          have := hfuel
          rw [hcellsplit] at this
          simpa using this
        rw [collect_succ, next_advance_batch hget hlast hb2, hsv]
        show sv :: ColumnIterator.collect fuel ⟨c, data, 0, b + 1⟩ =
          (cellsFrom c data b i).dropLast.reduceOption
        rw [hcellsplit, List.dropLast_cons_of_ne_nil hne2, hsv,
          List.reduceOption_cons_of_some, ih c data (b + 1) 0 hb2 hi2 hne hok hfuel2]
    · have hi1 : i + 1 < (rb.column c).length := by omega
      have hmem : rb ∈ data := List.get_mem data b hb
      have hsome := hok rb hmem i (by omega)
      obtain ⟨sv, hsv⟩ := Option.isSome_iff_exists.mp hsome
      have hcellsplit : cellsFrom c data b i =
          (ScalarValue.tryFromArray (rb.column c) i).toOption :: cellsFrom c data b (i + 1) := by
        rw [hcells]
        unfold cellsFrom
        rw [hdrop, batchCellsFrom_cons (by omega)]
        simp
      have hne2 : cellsFrom c data b (i + 1) ≠ [] := cellsFrom_ne_nil hb hi1
      have hfuel2 : (cellsFrom c data b (i + 1)).length ≤ fuel := by
        have := hfuel
        rw [hcellsplit] at this
        simpa using this
      rw [collect_succ, next_advance_row hget hb hlast, hsv]
      show sv :: ColumnIterator.collect fuel ⟨c, data, i + 1, b⟩ =
        (cellsFrom c data b i).dropLast.reduceOption
      rw [hcellsplit, List.dropLast_cons_of_ne_nil hne2, hsv,
        List.reduceOption_cons_of_some, ih c data b (i + 1) hb hi1 hne hok hfuel2]

theorem reduceOption_length_all_some {α : Type} :
    ∀ (l : List (Option α)), (∀ x ∈ l, x.isSome = true) →
      l.reduceOption.length = l.length := by
  intro l
  induction l with
  | nil => intro _; rfl
  | cons x xs ih =>
    intro h
    obtain ⟨a, rfl⟩ := Option.isSome_iff_exists.mp (h x (List.mem_cons_self x xs))
    rw [List.reduceOption_cons_of_some, List.length_cons, List.length_cons,
      ih fun y hy => h y (List.mem_cons_of_mem _ hy)]

theorem columnCells_isSome {c : Nat} {data : List RecordBatch}
    (hok : ∀ rb ∈ data, ∀ j, j < (rb.column c).length →
      ((ScalarValue.tryFromArray (rb.column c) j).toOption).isSome = true) :
    ∀ x ∈ columnCells c data, x.isSome = true := by
  intro x hx
  unfold columnCells cellsFrom at hx
  cases data with
  | nil => simp at hx
  | cons rb rest =>
    rw [List.drop_zero] at hx
    rcases List.mem_append.mp hx with h | h
    · unfold batchCellsFrom at h
      rw [List.drop_zero, List.mem_map] at h
      obtain ⟨j, hj, rfl⟩ := h
      exact hok rb (List.mem_cons_self rb rest) j (List.mem_range.mp hj)
    · rw [List.mem_flatMap] at h
      obtain ⟨rb2, hrb2, hx2⟩ := h
      unfold batchCellsFrom at hx2
      rw [List.drop_zero, List.mem_map] at hx2
      obtain ⟨j, hj, rfl⟩ := hx2
      exact hok rb2 (List.mem_cons_of_mem _ hrb2) j (List.mem_range.mp hj)


theorem depth_pos (t : DataType) : 1 ≤ t.depth := by
  cases t with
  | list f => cases f with | mk n ct b m => simp [DataType.depth]
  | _ => simp [DataType.depth]

theorem childTypesOk_sliceRaw (a : ArrayData) (o l : Nat) :
    (a.sliceRaw o l).childTypesOk = a.childTypesOk := by
  cases a
  rfl

theorem childTypesOk_getD {children : List ArrayData}
    (h : ArrayData.childTypesOkList children = true) :
    (children.getD 0 ArrayData.empty).childTypesOk = true := by
  cases children with
  | nil => rfl
  | cons c cs =>
    unfold ArrayData.childTypesOkList at h
    exact ((Bool.and_eq_true _ _).mp h).1

theorem mapM_congr {α β : Type} (f g : α → Except String β) :
    ∀ (xs : List α), (∀ x ∈ xs, f x = g x) → xs.mapM f = xs.mapM g := by
  intro xs
  induction xs with
  | nil => intro _; rfl
  | cons x rest ih =>
    intro h
    rw [List.mapM_cons, List.mapM_cons, h x (List.mem_cons_self x rest),
      ih fun y hy => h y (List.mem_cons_of_mem _ hy)]

theorem mapM_ok_of_forall {α β : Type} (f : α → Except String β) :
    ∀ (xs : List α), (∀ x ∈ xs, ∃ y, f x = .ok y) →
      ∃ ys, xs.mapM f = .ok ys ∧ ys.length = xs.length ∧
        ∀ j (hj : j < xs.length), ∃ hy : j < ys.length,
          f (xs.get ⟨j, hj⟩) = .ok (ys.get ⟨j, hy⟩) := by
  intro xs
  induction xs with
  | nil =>
    intro _
    exact ⟨[], rfl, rfl, fun j hj => absurd hj (by simp)⟩
  | cons x rest ih =>
    intro h
    obtain ⟨y, hy⟩ := h x (List.mem_cons_self x rest)
    obtain ⟨ys, hys, hlen, hidx⟩ := ih fun z hz => h z (List.mem_cons_of_mem _ hz)
    refine ⟨y :: ys, ?_, by simp [hlen], ?_⟩
    · rw [List.mapM_cons, hy, hys]
      rfl
    · intro j hj
      cases j with
      | zero => exact ⟨by simp, hy⟩
      | succ j2 =>
        obtain ⟨hy2, hf⟩ := hidx j2 (by simpa using hj)
        exact ⟨by simpa using hy2, hf⟩

theorem isNone_if_bool {β : Type} (b : Bool) (x : β) :
    (if b = true then none else some x).isNone = b := by
  cases b <;> simp

theorem dataType_sliceRaw (a : ArrayData) (o l : Nat) :
    (a.sliceRaw o l).dataType = a.dataType := by
  cases a
  rfl

theorem tryFromArrayF_spec :
    ∀ (fuel : Nat) (a : ArrayData) (i : Nat),
      a.childTypesOk = true → a.dataType.depth ≤ fuel →
      (tryFromArrayF fuel a i = ScalarValue.tryFromArray a i) ∧
      (a.dataType.supportedRec = true →
        ∃ v, tryFromArrayF fuel a i = .ok v ∧ scalarMatches v a.dataType = true ∧
          v.isNullValue = a.isNull i ∧ payloadAgrees v a i) ∧
      (a.dataType.supportedTop = false →
        ∃ e, tryFromArrayF fuel a i = .error e) := by
  intro fuel
  induction fuel with
  | zero =>
    intro a i _ hd
    have := depth_pos a.dataType
    omega
  | succ fuel ih =>
    intro a i hct hd
    obtain ⟨t, len, nc, off, bufs, children, bm⟩ := a
    cases t
    case list f =>
      obtain ⟨fn, ft, fnullable, fm⟩ := f
      simp only [ArrayData.childTypesOk, Bool.and_eq_true, Field.dataType] at hct
      obtain ⟨hbeq, hctl⟩ := hct
      have hchildt : (children.getD 0 ArrayData.empty).dataType = ft :=
        DataType.eq_of_beq hbeq
      simp only [ArrayData.dataType, DataType.depth] at hd
      have hdft : ft.depth ≤ fuel := by omega
      have hnt : (ListArray.value (ArrayData.mk (DataType.list (Field.mk fn ft fnullable fm)) len nc off bufs children bm) i).dataType = ft := by
        unfold ListArray.value
        rw [dataType_sliceRaw]
        simp only [ArrayData.childData]
        exact hchildt
      have hnct : (ListArray.value (ArrayData.mk (DataType.list (Field.mk fn ft fnullable fm)) len nc off bufs children bm) i).childTypesOk = true := by
        unfold ListArray.value
        rw [childTypesOk_sliceRaw]
        simp only [ArrayData.childData]
        exact childTypesOk_getD hctl
      have hInner : ∀ j, tryFromArrayF fuel (ListArray.value (ArrayData.mk (DataType.list (Field.mk fn ft fnullable fm)) len nc off bufs children bm) i) j = ScalarValue.tryFromArray (ListArray.value (ArrayData.mk (DataType.list (Field.mk fn ft fnullable fm)) len nc off bufs children bm) i) j :=
        fun j => (ih (ListArray.value (ArrayData.mk (DataType.list (Field.mk fn ft fnullable fm)) len nc off bufs children bm) i) j hnct (by rw [hnt]; exact hdft)).1
      have hWrap : ∀ j, ScalarValue.tryFromArray (ListArray.value (ArrayData.mk (DataType.list (Field.mk fn ft fnullable fm)) len nc off bufs children bm) i) j = tryFromArrayF ft.depth (ListArray.value (ArrayData.mk (DataType.list (Field.mk fn ft fnullable fm)) len nc off bufs children bm) i) j := by
        intro j
        unfold ScalarValue.tryFromArray
        rw [hnt]
      refine ⟨?_, ?_, fun habs => by
        simp [ArrayData.dataType, DataType.supportedTop] at habs⟩
      · show tryFromArrayF (fuel + 1) (ArrayData.mk (DataType.list (Field.mk fn ft fnullable fm)) len nc off bufs children bm) i = ScalarValue.tryFromArray (ArrayData.mk (DataType.list (Field.mk fn ft fnullable fm)) len nc off bufs children bm) i
        unfold ScalarValue.tryFromArray
        simp only [ArrayData.dataType, DataType.depth]
        by_cases hnull : (ArrayData.mk (DataType.list (Field.mk fn ft fnullable fm)) len nc off bufs children bm).isNull i = true
        · simp [tryFromArrayF, hnull, ArrayData.dataType, Field.dataType]
        · simp only [tryFromArrayF, ArrayData.dataType, Field.dataType, hnull,
            Bool.false_eq_true, if_false]
          rw [mapM_congr _ _ _ fun j _ => (hInner j).trans (hWrap j)]
      · intro hs
        simp only [ArrayData.dataType, DataType.supportedRec] at hs
        by_cases hnull : (ArrayData.mk (DataType.list (Field.mk fn ft fnullable fm)) len nc off bufs children bm).isNull i = true
        · refine ⟨.list none ft, ?_, ?_, ?_, trivial⟩
          · simp [tryFromArrayF, hnull, ArrayData.dataType, Field.dataType]
          · simp [scalarMatches, ScalarValue.typeTag, DataType.tag,
              ArrayData.dataType, DataType.beq_refl]
          · simp [ScalarValue.isNullValue, hnull]
        · have hElems : ∀ x ∈ List.range (ListArray.value (ArrayData.mk (DataType.list (Field.mk fn ft fnullable fm)) len nc off bufs children bm) i).length,
              ∃ y, tryFromArrayF fuel (ListArray.value (ArrayData.mk (DataType.list (Field.mk fn ft fnullable fm)) len nc off bufs children bm) i) x = .ok y := by
            intro x _
            obtain ⟨v, hv, _⟩ := (ih (ListArray.value (ArrayData.mk (DataType.list (Field.mk fn ft fnullable fm)) len nc off bufs children bm) i) x hnct (by rw [hnt]; exact hdft)).2.1
              (by rw [hnt]; exact hs)
            exact ⟨v, hv⟩
          obtain ⟨ys, hmap, hlen2, hidx⟩ := mapM_ok_of_forall _ _ hElems
          refine ⟨.list (some ys) ft, ?_, ?_, ?_, ?_⟩
          · simp only [tryFromArrayF, ArrayData.dataType, Field.dataType, hnull,
              Bool.false_eq_true, if_false]
            rw [hmap]
          · simp [scalarMatches, ScalarValue.typeTag, DataType.tag,
              ArrayData.dataType, DataType.beq_refl]
          · simp [ScalarValue.isNullValue, hnull]
          · show payloadAgrees (.list (some ys) ft) (ArrayData.mk (DataType.list (Field.mk fn ft fnullable fm)) len nc off bufs children bm) i
            unfold payloadAgrees
            refine ⟨by simpa using hlen2, ?_⟩
            intro j hj
            have hj2 : j < (List.range (ListArray.value (ArrayData.mk (DataType.list (Field.mk fn ft fnullable fm)) len nc off bufs children bm) i).length).length := by
              simp only [List.length_range]
              simp only [List.length_range] at hlen2
              omega
            obtain ⟨hy, hf⟩ := hidx j hj2
            simp only [List.get_eq_getElem, List.getElem_range] at hf
            rw [hInner j] at hf
            exact hf
    case nullT =>
      exact ⟨rfl, fun h => by simp [ArrayData.dataType, DataType.supportedRec] at h, fun _ => ⟨_, rfl⟩⟩
    case date64 =>
      exact ⟨rfl, fun h => by simp [ArrayData.dataType, DataType.supportedRec] at h, fun _ => ⟨_, rfl⟩⟩
    case timeMicrosecond =>
      exact ⟨rfl, fun h => by simp [ArrayData.dataType, DataType.supportedRec] at h, fun _ => ⟨_, rfl⟩⟩
    case timeNanosecond =>
      exact ⟨rfl, fun h => by simp [ArrayData.dataType, DataType.supportedRec] at h, fun _ => ⟨_, rfl⟩⟩
    case struct =>
      exact ⟨rfl, fun h => by simp [ArrayData.dataType, DataType.supportedRec] at h, fun _ => ⟨_, rfl⟩⟩
    all_goals clear ih
    all_goals
      refine ⟨rfl, fun _ => ?_,
        fun h => by simp [ArrayData.dataType, DataType.supportedTop] at h⟩
    all_goals
      refine ⟨_, rfl, rfl, by simp [ScalarValue.isNullValue, isNone_if_bool], ?_⟩
    all_goals
      split <;> simp [payloadAgrees, readCell, ArrayData.dataType, DataType.primLayout]

/-! ## The claims -/

set_option maxRecDepth 100000 in
set_option maxHeartbeats 4000000 in
/-- C1: encoding the schema `{index: Int32 not-null, word: Utf8 not-null}`
and the batch `index=[1,2,3,4,5], word=["one",...,"five"]` through the IPC
stream writer and decoding the resulting bytes through the IPC stream
reader yields a batch with identical schema and identical column values,
and once the writer's `finish()` has been called the reader's batch
sequence ends after exactly one batch. -/
theorem claim_C1_wire_roundtrip :
    ((StreamWriter.tryNew ipcSchema).write ipcBatch).map
      (fun w => decodeStream w.finish.sink) = .ok (.ok (ipcSchema, [ipcBatch])) := by
  rfl

/-- C2: at the failing input the example actually passes — the full
10-element array `b` against the 5-element `a` — the equality kernel has no
elementwise result (the lengths differ), so the example's asserted outcome
is unreachable; the comparison the assertions describe, of `a` against the
slice of `b` at offset 5, does yield `[true,true,true,false,true]`. -/
theorem claim_C2_eq_kernel_failing_input :
    eqKernel opsB opsA = none ∧
    (opsB.slice 5 5).map (fun s => eqKernel s opsA) =
      .ok (some [true, true, true, false, true]) :=
  ⟨rfl, rfl⟩

/-- C3: constructing a Utf8 ArrayData of length 5 with offsets buffer
`[0,5,9,9,15,20]` over a 20-byte value buffer succeeds and the 5 logical
rows have string values of byte lengths `[5,4,0,6,5]`; constructing it with
the decreasing adjacent pair `9,8` fails with ValidationError. -/
theorem claim_C3_utf8_offsets_validation :
    (ArrayData.build .utf8 5 none 0 [utf8Offsets, utf8Values] [] none).map
      (fun a => (List.range 5).map fun i => (StringArray.value a i).map List.length) =
      .ok [.ok 5, .ok 4, .ok 0, .ok 6, .ok 5] ∧
    ArrayData.build .utf8 5 none 0 [utf8BadOffsets, utf8Values] [] none =
      .error (.validationError "offsets-not-monotonic") :=
  ⟨rfl, rfl⟩

/-- C4: for a List ArrayData of length 6 with offsets buffer
`[0,2,4,7,7,8,10]` over a 10-element Int32 child, `value(i)` for `i` in
`[0,6)` yields sub-lists of lengths `[2,2,3,0,1,2]`, the one at index 3
empty. -/
theorem claim_C4_list_value_lengths :
    (ArrayData.build listType 6 none 0 [listOffsets] [listChild]
        (some [0b00110111])).map
      (fun a => (List.range 6).map fun i => (ListArray.value a i).length) =
      .ok [2, 2, 3, 0, 1, 2] ∧
    (ArrayData.build listType 6 none 0 [listOffsets] [listChild]
        (some [0b00110111])).map (fun a => (ListArray.value a 3).length) = .ok 0 :=
  ⟨rfl, rfl⟩

/-- C5: appending `[5, null, 7, null, 9]` through the Int32 builder and
finishing yields an array of length 5 with validity
`[true,false,true,false,true]` and values 5, 7, 9 at slots 0, 2, 4. -/
theorem claim_C5_builder_roundtrip :
    builderResult.1.length = 5 ∧
    (List.range 5).map (fun i => builderResult.1.isValid i) =
      [true, false, true, false, true] ∧
    builderResult.1.valueAt 0 = some (.int 5) ∧
    builderResult.1.valueAt 2 = some (.int 7) ∧
    builderResult.1.valueAt 4 = some (.int 9) :=
  ⟨rfl, rfl, rfl, rfl, rfl⟩

/-- C6: `RecordBatch::try_new(schema, columns)` returns a batch exactly
when the column count equals the schema's field count, each column's data
type equals the declared field type, and all columns share one row count —
in particular three matching Int32 columns of lengths `[5,5,4]` fail with
RowCountMismatchError. -/
theorem claim_C6_recordbatch_validation :
    (∀ (s : Schema) (cols : List ArrayData),
      (RecordBatch.tryNew s cols).isOk = true ↔
        (cols.length = s.fields.length ∧
         (∀ p ∈ cols.zip s.fields, p.1.dataType = p.2.dataType) ∧
         (∀ c1 ∈ cols, ∀ c2 ∈ cols, c1.length = c2.length))) ∧
    RecordBatch.tryNew c6Schema
      [int32ArrayFrom [1, 2, 3, 4, 5], int32ArrayFrom [1, 2, 3, 4, 5],
       int32ArrayFrom [1, 2, 3, 4]] = .error .rowCountMismatchError := by
  refine ⟨?_, rfl⟩
  intro s cols
  unfold RecordBatch.tryNew
  split_ifs with h1 h2 h3
  · simp only [Except.isOk, Except.toBool, Bool.false_eq_true, false_iff, not_and]
    intro hlen
    simp [hlen] at h1
  · simp only [Except.isOk, Except.toBool, Bool.false_eq_true, false_iff, not_and]
    intro _ htypes _
    have h2f : (cols.zip s.fields).all (fun p => p.1.dataType.beq p.2.dataType) = false := by
      simpa using h2
    rw [List.all_eq_false] at h2f
    obtain ⟨p, hp, hbeq⟩ := h2f
    exact absurd (dataType_beq_iff.mpr (htypes p hp)) (by simp [hbeq])
  · simp only [Except.isOk, Except.toBool, Bool.false_eq_true, false_iff, not_and]
    intro _ _ hrows
    have h3f : cols.all (fun c => c.length == (cols.getD 0 ArrayData.empty).length) = false := by
      simpa using h3
    rw [List.all_eq_false] at h3f
    obtain ⟨c, hc, hlen⟩ := h3f
    cases cols with
    | nil => cases hc
    | cons c0 rest =>
      have h0 : c0 ∈ c0 :: rest := List.mem_cons_self c0 rest
      have := hrows c hc c0 h0
      simp [List.getD, this] at hlen
  · simp only [Except.isOk, Except.toBool, true_iff]
    have h1e : cols.length = s.fields.length := by simpa using h1
    have h2t : ∀ p ∈ cols.zip s.fields, (p.1.dataType.beq p.2.dataType) = true := by
      have : (cols.zip s.fields).all (fun p => p.1.dataType.beq p.2.dataType) = true := by
        simpa using h2
      exact List.all_eq_true.mp this
    have h3t : ∀ c ∈ cols, (c.length == (cols.getD 0 ArrayData.empty).length) = true := by
      have : cols.all (fun c => c.length == (cols.getD 0 ArrayData.empty).length) = true := by
        simpa using h3
      exact List.all_eq_true.mp this
    refine ⟨h1e, fun p hp => dataType_beq_iff.mp (h2t p hp), ?_⟩
    intro c1 hc1 c2 hc2
    have e1 := h3t c1 hc1
    have e2 := h3t c2 hc2
    simp only [beq_iff_eq] at e1 e2
    rw [e1, e2]

/-- C7: for every ArrayData `a` and in-bounds pair `(o, l)`, slicing
succeeds and `a.slice(o, l).value(i) = a.value(o+i)` for every `i < l`; the
slice shares `a`'s buffers, children and bitmap and differs only in offset
(advanced by `o`) and length. -/
theorem claim_C7_slice_transparency :
    ∀ (a : ArrayData) (o l i : Nat), o + l ≤ a.length → i < l →
    ∃ s, a.slice o l = .ok s ∧ s.valueAt i = a.valueAt (o + i) ∧
      s.buffers = a.buffers ∧ s.childData = a.childData ∧
      s.nullBitmap = a.nullBitmap ∧ s.dataType = a.dataType ∧
      s.nullCount = a.nullCount ∧ s.offset = a.offset + o ∧ s.length = l := by
  intro a o l i h1 h2
  refine ⟨a.sliceRaw o l, ?_, ?_, rfl, rfl, rfl, rfl, rfl, rfl, rfl⟩
  · simp [ArrayData.slice, h1]
  · have hs : (a.sliceRaw o l).length = l := rfl
    have hoi : o + i < a.length := by omega
    simp [ArrayData.valueAt, hs, h2, hoi, readCell_sliceRaw]

/-- Witness for C7 at `b = [1..10]`, `(o, l) = (5, 5)`, `i = 2`. -/
theorem claim_C7_slice_transparency_witness :
    5 + 5 ≤ opsB.length ∧ 2 < 5 ∧
    (∃ s, opsB.slice 5 5 = .ok s ∧ s.valueAt 2 = opsB.valueAt (5 + 2) ∧
      s.buffers = opsB.buffers ∧ s.childData = opsB.childData ∧
      s.nullBitmap = opsB.nullBitmap ∧ s.dataType = opsB.dataType ∧
      s.nullCount = opsB.nullCount ∧ s.offset = opsB.offset + 5 ∧ s.length = 5) :=
  ⟨by decide, by decide,
    claim_C7_slice_transparency opsB 5 5 2 (by decide) (by decide)⟩

/-- C8: driving `column_iterator(c)` over a non-empty batch sequence yields
the extraction results of every cell except the final batch's last row —
the iterator returns None as soon as advancing would move past the final
batch — so the yield count is the total row count minus one; for a single
batch of `n ≥ 1` rows these are rows `0` through `n-2` in order. -/
theorem claim_C8_column_iterator_drops_last :
    ∀ (c fuel : Nat) (data : List RecordBatch),
      data ≠ [] →
      (∀ rb ∈ data, 1 ≤ (rb.column c).length) →
      (∀ rb ∈ data, ∀ j, j < (rb.column c).length →
        ((ScalarValue.tryFromArray (rb.column c) j).toOption).isSome = true) →
      (columnCells c data).length ≤ fuel →
      ColumnIterator.collect fuel (ColumnIterator.new c data) =
        ((columnCells c data).dropLast).reduceOption ∧
      (ColumnIterator.collect fuel (ColumnIterator.new c data)).length =
        (columnCells c data).length - 1 := by
  intro c fuel data hne0 hne hok hfuel
  have hb : 0 < data.length := List.length_pos.mpr hne0
  have hmem : data.get ⟨0, hb⟩ ∈ data := List.get_mem data 0 hb
  have hi : 0 < ((data.get ⟨0, hb⟩).column c).length := hne _ hmem
  have hmain : ColumnIterator.collect fuel (ColumnIterator.new c data) =
      ((columnCells c data).dropLast).reduceOption :=
    collect_cellsFrom fuel c data 0 0 hb hi hne hok hfuel
  refine ⟨hmain, ?_⟩
  rw [hmain, reduceOption_length_all_some _
    (fun x hx => columnCells_isSome hok x (List.dropLast_subset _ hx)),
    List.length_dropLast]


theorem claim_C8_column_iterator_drops_last_witness :
    [c8Batch] ≠ [] ∧
    (ColumnIterator.collect 3 (ColumnIterator.new 0 [c8Batch]) =
      ((columnCells 0 [c8Batch]).dropLast).reduceOption ∧
    (ColumnIterator.collect 3 (ColumnIterator.new 0 [c8Batch])).length =
      (columnCells 0 [c8Batch]).length - 1) :=
  ⟨by simp, claim_C8_column_iterator_drops_last 0 3 [c8Batch] (by simp)
    (by
      intro rb hrb
      rw [List.mem_singleton] at hrb
      subst hrb
      decide)
    (by
      intro rb hrb j hj
      rw [List.mem_singleton] at hrb
      subst hrb
      have h3 : j < 3 := hj
      interval_cases j <;> decide)
    (by decide)⟩

/-- C9: `Table::value(column, index)` returns None — with no error and
regardless of the stored batches — whenever the column is at or beyond the
schema's field count or `index / chunk_size` is at or beyond the stored
batch count.  (Rust's `usize` division panics on a zero `chunk_size`, so
the statement takes a positive one.) -/
theorem claim_C9_table_value_out_of_range :
    ∀ (t : Table) (column index : Nat), 0 < t.chunkSize →
      t.schema.fields.length ≤ column ∨ t.data.length ≤ index / t.chunkSize →
      t.value column index = none := by
  intro t column index _ h
  by_cases hc : t.schema.fields.length ≤ column
  · simp [Table.value, hc]
  · rcases h with h | h
    · exact absurd h hc
    · simp [Table.value, hc, h]

/-- Witness for C9: an empty table with chunk size 2000 yields None at
column 5, and also at an in-range column with no batch to serve row 0. -/
theorem claim_C9_table_value_out_of_range_witness :
    0 < (Table.mk c6Schema [] 0 2000).chunkSize ∧
    (Table.mk c6Schema [] 0 2000).value 5 0 = none :=
  ⟨by decide,
    claim_C9_table_value_out_of_range (Table.mk c6Schema [] 0 2000) 5 0
      (by decide) (Or.inl (by decide))⟩

/-- C10 counterexample: `listDate64Array` is a valid (child-type
consistent) array whose data type, List, is in the claim's supported list,
and whose slot 0 is non-null — yet `try_from_array` returns Err (the
nested Date64 conversion has no arm and its error propagates), not Ok of
the List variant. -/
theorem claim_C10_list_of_unsupported_errs :
    listDate64Array.dataType.supportedTop = true ∧
    listDate64Array.childTypesOk = true ∧
    listDate64Array.isNull 0 = false ∧
    ScalarValue.tryFromArray listDate64Array 0 =
      .error "Downcast not available for type: Date64" :=
  ⟨rfl, rfl, rfl, rfl⟩

/-- C10 (amended): for every child-type-consistent array whose data type
is supported — with List supported only when its element type is
recursively supported — `try_from_array` returns Ok of the ScalarValue
variant matching the array's data type, carrying None exactly when the
slot is null and the stored value (the typed accessor's read; for List the
element-wise conversion of the derived sub-array) otherwise; for any data
type outside the supported list it returns Err. -/
theorem claim_C10_try_from_array_amended :
    ∀ (a : ArrayData) (i : Nat), a.childTypesOk = true →
      (a.dataType.supportedRec = true →
        ∃ v, ScalarValue.tryFromArray a i = .ok v ∧
          scalarMatches v a.dataType = true ∧
          v.isNullValue = a.isNull i ∧ payloadAgrees v a i) ∧
      (a.dataType.supportedTop = false →
        ∃ e, ScalarValue.tryFromArray a i = .error e) := by
  intro a i hct
  have h := tryFromArrayF_spec a.dataType.depth a i hct (Nat.le_refl _)
  exact ⟨h.2.1, h.2.2⟩

/-- Witness for the amended C10 at a two-row Utf8 array, slot 1. -/
theorem claim_C10_try_from_array_amended_witness :
    (stringArrayFrom ["hi", "there"]).childTypesOk = true ∧
    (((stringArrayFrom ["hi", "there"]).dataType.supportedRec = true →
      ∃ v, ScalarValue.tryFromArray (stringArrayFrom ["hi", "there"]) 1 = .ok v ∧
        scalarMatches v (stringArrayFrom ["hi", "there"]).dataType = true ∧
        v.isNullValue = (stringArrayFrom ["hi", "there"]).isNull 1 ∧
        payloadAgrees v (stringArrayFrom ["hi", "there"]) 1) ∧
    ((stringArrayFrom ["hi", "there"]).dataType.supportedTop = false →
      ∃ e, ScalarValue.tryFromArray (stringArrayFrom ["hi", "there"]) 1 = .error e)) :=
  ⟨by rfl, claim_C10_try_from_array_amended (stringArrayFrom ["hi", "there"]) 1 (by rfl)⟩

end ArrowModel
